import Mathlib

set_option allowUnsafeReducibility true
attribute [local semireducible] Rat.add Rat.mul Rat.div Rat.sub Rat.inv
  Rat.normalize Rat.maybeNormalize

/-!
Verification of the availability & power-scoring engine of the
energy-calendar repository.

Shallow embedding conventions:
* Clock times ("HH:MM" strings in the source) are represented as minutes
  since midnight (`ℕ`); `timeToMinutes` is the bridge the source itself
  uses for every comparison, and zero-padded two-digit string comparison
  (`localeCompare`) coincides with numeric comparison of the minute values.
* Power values (JS `number`) are represented as `ℚ`.
* Database rows fetched through Prisma are represented as records in a `DB`
  snapshot, and each `findMany` call becomes a `List.filter` with the same
  `where` conditions.  The `@db.Time()` → "HH:MM" conversion
  (`timeFromDate`) is absorbed into the minute representation.
* JS `Array.prototype.sort` with the slot comparator (power, then start
  time — a total preorder) is modelled by the stable `List.insertionSort`.
* The `reason` strings are modelled by an inductive `Reason`
  (`reservado` = "Horario ya reservado"; `altoConsumo p` = the
  high-consumption message carrying the power value that `toFixed(1)`
  would format).
-/

namespace EnergyCalendar

/-- JS `Math.round`: round half toward positive infinity. -/
def jsRound (q : ℚ) : ℤ := ⌊q + 1/2⌋

/-- `timeToMinutes ∘ formatTime`: the source formats a fractional hour as
"HH:MM" with `HH = Math.floor(hour)` and `MM = Math.round((hour-HH)*60)`,
and all later arithmetic converts back with `timeToMinutes`. -/
def fmtMinutes (hour : ℚ) : ℕ := (60 * ⌊hour⌋ + jsRound ((hour - ⌊hour⌋) * 60)).toNat

/-- `timeSlotsOverlap` (part_008): strict inequalities on both sides. -/
def timeSlotsOverlap (s1 e1 s2 e2 : ℕ) : Bool :=
  decide (s1 < e2) && decide (e1 > s2)

/-- `overlapMinutes` (part_008): `Math.max(0, min(e1,e2) - max(s1,s2))`;
`ℕ` truncated subtraction is exactly the `Math.max(0, ·)` clamp. -/
def overlapMinutes (s1 e1 s2 e2 : ℕ) : ℕ :=
  min e1 e2 - max s1 s2

/-- `ExistingAppointmentLight` (part_008). -/
structure ApptLight where
  start_time : ℕ
  end_time : ℕ
  power_consumption : ℚ
  status : String
deriving DecidableEq

/-- `PreferredHourLight` (part_008). -/
structure PreferredHourLight where
  day_of_week : ℕ
  start_time : ℕ
  end_time : ℕ
  power_consumption : ℚ
deriving DecidableEq

/-- `MachineLight` (part_008). -/
structure MachineLight where
  id : String
  power_consumption : ℚ
deriving DecidableEq

/-- The unavailability / warning strings attached to a slot. -/
inductive Reason where
  | reservado                 -- "Horario ya reservado"
  | altoConsumo (power : ℚ)   -- `Alto consumo energético (… kW)`
deriving DecidableEq

/-- `TimeSlot` (part_008 / lib types). -/
structure TimeSlot where
  start_time : ℕ
  end_time : ℕ
  available : Bool
  power_consumption : ℚ
  power_spike_percentage : ℚ
  machine_ids : List String
  reason : Option Reason
deriving DecidableEq

/-- The sort key of the slot comparator in `generateTimeSlots` and
`groupSlotsByEfficiency`: ascending power, ties by ascending start time
(`localeCompare` on zero-padded "HH:MM" = numeric order on minutes). -/
def slotLE (a b : TimeSlot) : Prop :=
  a.power_consumption < b.power_consumption ∨
    (a.power_consumption = b.power_consumption ∧ a.start_time ≤ b.start_time)

instance : DecidableRel slotLE := fun _a _b =>
  inferInstanceAs (Decidable (_ ∨ _))

instance : IsTotal TimeSlot slotLE where
  total a b := by
    rcases lt_trichotomy a.power_consumption b.power_consumption with h | h | h
    · exact Or.inl (Or.inl h)
    · rcases Nat.le_total a.start_time b.start_time with h2 | h2
      · exact Or.inl (Or.inr ⟨h, h2⟩)
      · exact Or.inr (Or.inr ⟨h.symm, h2⟩)
    · exact Or.inr (Or.inl h)

instance : IsTrans TimeSlot slotLE where
  trans a b c hab hbc := by
    rcases hab with h1 | ⟨h1, h1s⟩ <;> rcases hbc with h2 | ⟨h2, h2s⟩
    · exact Or.inl (h1.trans h2)
    · exact Or.inl (h2 ▸ h1)
    · exact Or.inl (h1 ▸ h2)
    · exact Or.inr ⟨h1.trans h2, h1s.trans h2s⟩

/-- `totalMachinePower` (part_008 line 210): sum of the requested machines
nameplate powers.  The source computes this value and never uses it again. -/
def totalMachinePower (machines : List MachineLight) : ℚ :=
  machines.foldl (fun sum m => sum + m.power_consumption) 0

/-- The preferred-hours reduce of `generateTimeSlots` (part_008 231-236). -/
def preferredWeighted (startT endT : ℕ) (slotMinutes : ℚ)
    (prefs : List PreferredHourLight) : ℚ :=
  prefs.foldl (fun sum pref =>
    let mins := overlapMinutes startT endT pref.start_time pref.end_time
    if mins = 0 then sum
    else sum + ((mins : ℚ) / slotMinutes) * pref.power_consumption) 0

/-- The concurrent-appointments reduce of `generateTimeSlots`
(part_008 239-246); each appointment is weighted by its own duration. -/
def concurrentWeighted (startT endT : ℕ) (appts : List ApptLight) : ℚ :=
  appts.foldl (fun sum appt =>
    let mins := overlapMinutes startT endT appt.start_time appt.end_time
    if mins = 0 then sum
    else sum + ((mins : ℚ) / ((appt.end_time : ℚ) - (appt.start_time : ℚ)))
            * appt.power_consumption) 0

/-- One iteration of the slot loop of `generateTimeSlots` (part_008
214-267): the candidate slot at fractional hour `startHour`. -/
def mkSlot (duration : ℚ) (machineIds : List String)
    (conflicting : List ApptLight) (prefs : List PreferredHourLight)
    (load : List ApptLight) (startHour : ℚ) : TimeSlot :=
  let startT := fmtMinutes startHour
  let endT := fmtMinutes (startHour + duration)
  let slotMinutes : ℚ := (endT : ℚ) - (startT : ℚ)
  let hasConflict := conflicting.any fun a =>
    timeSlotsOverlap startT endT a.start_time a.end_time
  let extra := preferredWeighted startT endT slotMinutes prefs
             + concurrentWeighted startT endT load
  { start_time := startT
    end_time := endT
    available := !hasConflict
    power_consumption := extra
    power_spike_percentage := 0
    machine_ids := machineIds
    reason :=
      if hasConflict then some .reservado
      else if extra > 4 then some (.altoConsumo extra) else none }

/-- Number of iterations of the loop
`for (startHour = 8; startHour + duration <= 18; startHour += 0.5)`. -/
def numSlots (duration : ℚ) : ℕ :=
  if duration ≤ 10 then (⌊(10 - duration) * 2⌋).toNat + 1 else 0

/-- The start hours enumerated by the slot loop: `8, 8.5, 9, …` while
`startHour + duration ≤ 18`. -/
def slotStarts (duration : ℚ) : List ℚ :=
  (List.range (numSlots duration)).map fun i => 8 + (i : ℚ) / 2

/-- The slot list before sorting. -/
def rawSlots (machineIds : List String) (duration : ℚ)
    (conflicting : List ApptLight) (prefs : List PreferredHourLight)
    (load : List ApptLight) : List TimeSlot :=
  (slotStarts duration).map (mkSlot duration machineIds conflicting prefs load)

/-- `sortedSlots.length > 0 ? sortedSlots[0].power_consumption : 0`. -/
def lowestOf : List TimeSlot → ℚ
  | [] => 0
  | s :: _ => s.power_consumption

/-- The final spike-percentage rewrite of `generateTimeSlots`
(part_008 279-283). -/
def spikeOf (lowest : ℚ) (s : TimeSlot) : TimeSlot :=
  { s with power_spike_percentage :=
      if lowest > 0 then (s.power_consumption - lowest) / lowest * 100
      else s.power_consumption }

/-- `AvailabilityService.generateTimeSlots` (part_008 199-284).  The
`date` and `laboratoryId` parameters are unused in the source body and
omitted; `totalMachinePower machines` is computed by the source and never
used. -/
def generateTimeSlots (machineIds : List String) (duration : ℚ)
    (conflicting : List ApptLight) (prefs : List PreferredHourLight)
    (machines : List MachineLight) (load : List ApptLight) : List TimeSlot :=
  let _base := totalMachinePower machines
  let sorted := (rawSlots machineIds duration conflicting prefs load).insertionSort slotLE
  sorted.map (spikeOf (lowestOf sorted))

/-! ### Efficiency grouping (part_008 `groupSlotsByEfficiency`, 326-380) -/

/-- One entry of the `ranges` array, together with the lower bound the
source derives as `idx > 0 ? ranges[idx - 1].max : 0`.  `max := none`
models `Number.POSITIVE_INFINITY`. -/
structure Band where
  prev : ℚ
  max : Option ℚ
  label : String
  id : String
deriving DecidableEq

/-- The `ranges` array of part_008 (the `{10,30,50,500}` revision). -/
def ranges : List Band :=
  [⟨0, some 10, "Óptimo", "optimal"⟩,
   ⟨10, some 30, "Bueno", "good"⟩,
   ⟨30, some 50, "Regular", "regular"⟩,
   ⟨50, some 500, "Alto", "high"⟩,
   ⟨500, none, "Muy Alto", "very-high"⟩]

/-- The percentage the grouping filter recomputes for a slot
(part_008 349-350). -/
def pctOf (lowest : ℚ) (s : TimeSlot) : ℚ :=
  if lowest > 0 then (s.power_consumption - lowest) / lowest * 100 else 0

/-- The band test `pct >= prevMax && pct < range.max`; a `pct < Infinity`
comparison is always true. -/
def pctInBand (b : Band) (pct : ℚ) : Bool :=
  decide (b.prev ≤ pct) &&
    (match b.max with
     | some m => decide (pct < m)
     | none => true)

/-- `EfficiencyGroup` (part_008).  `time_range` is the pair that the
source formats as `"start - end"`; `power_spike_percentage` is the
`Math.round`ed average. -/
structure EfficiencyGroup where
  id : String
  label : String
  power_spike_percentage : ℤ
  time_range : ℕ × ℕ
  slots : List TimeSlot
  average_power_consumption : ℚ
deriving DecidableEq

/-- The group built for a non-empty band (part_008 354-376).  `s0` is
`rangeSlots[0]`, the initial value of both reduces. -/
def mkGroup (lowestPower : ℚ) (b : Band) (s0 : TimeSlot)
    (rangeSlots : List TimeSlot) : EfficiencyGroup :=
  let earliestStart := rangeSlots.foldl
    (fun mn s => if s.start_time < mn then s.start_time else mn) s0.start_time
  let latestEnd := rangeSlots.foldl
    (fun mx s => if s.end_time > mx then s.end_time else mx) s0.end_time
  let avgPower := (rangeSlots.map (·.power_consumption)).sum / rangeSlots.length
  let avgPct := if lowestPower > 0 then (avgPower - lowestPower) / lowestPower * 100 else 0
  { id := b.id
    label := b.label
    power_spike_percentage := jsRound avgPct
    time_range := (earliestStart, latestEnd)
    slots := rangeSlots
    average_power_consumption := avgPower }

/-- The `rangeSlots` filter of part_008 348-352. -/
def bandSlots (lowestPower : ℚ) (b : Band) (sorted : List TimeSlot) :
    List TimeSlot :=
  sorted.filter fun s => pctInBand b (pctOf lowestPower s)

/-- The per-band body of the `ranges.forEach` loop (part_008 346-377):
an empty band pushes no group. -/
def bandGroup (lowestPower : ℚ) (sorted : List TimeSlot) (b : Band) :
    Option EfficiencyGroup :=
  match bandSlots lowestPower b sorted with
  | [] => none
  | s0 :: _ => some (mkGroup lowestPower b s0 (bandSlots lowestPower b sorted))

/-- `AvailabilityService.groupSlotsByEfficiency` (part_008 326-380).
`sorted[0]?.power_consumption || 0` maps a `0` head power to `0`, the
same value, so it is the plain head-or-zero. -/
def groupSlotsByEfficiency (timeSlots : List TimeSlot) : List EfficiencyGroup :=
  if timeSlots.length = 0 then []
  else
    ranges.filterMap
      (bandGroup (lowestOf (timeSlots.insertionSort slotLE))
        (timeSlots.insertionSort slotLE))

/-! ### The Prisma-backed `checkAvailability` (part_008 69-196)

The database snapshot holds the rows the four `findMany` calls range
over.  `appointment_date` is compared only through the one-day window
`[startOfDay, nextDay)`, so a date is represented by its day index
`day : ℕ`; the day of week enters separately as `dayOfWeek`. -/

structure DBAppointment where
  laboratory_id : ℕ
  day : ℕ
  status : String
  machine_ids : List ℕ
  start_time : ℕ
  end_time : ℕ
  power_consumption : ℚ
deriving DecidableEq

structure DBMachine where
  id : ℕ
  laboratory_id : ℕ
  power_consumption : ℚ
deriving DecidableEq

structure DBPreferredHour where
  day_of_week : ℕ
  start_time : ℕ
  end_time : ℕ
  power_consumption : ℚ
deriving DecidableEq

structure DB where
  appointments : List DBAppointment
  machines : List DBMachine
  preferredHours : List DBPreferredHour
deriving DecidableEq

/-- `status: { notIn: ['cancelled', 'CANCELLED'] }`. -/
def notCancelled (s : String) : Bool :=
  !(s == "cancelled") && !(s == "CANCELLED")

/-- The conflict query (part_008 106-119): appointments of the requested
laboratory on the requested date, not cancelled, linked to at least one
of the requested machines. -/
def conflictingQuery (db : DB) (labId day : ℕ) (targets : List ℕ) :
    List DBAppointment :=
  db.appointments.filter fun a =>
    decide (a.laboratory_id = labId) && decide (a.day = day) &&
    notCancelled a.status && a.machine_ids.any fun m => targets.contains m

/-- The load query (part_008 122-133): all non-cancelled appointments on
the requested date — the `where` clause carries no laboratory filter. -/
def loadQuery (db : DB) (day : ℕ) : List DBAppointment :=
  db.appointments.filter fun a => decide (a.day = day) && notCancelled a.status

/-- The machines query (part_008 167-170). -/
def machinesQuery (db : DB) (labId : ℕ) (targets : List ℕ) : List DBMachine :=
  db.machines.filter fun m =>
    targets.contains m.id && decide (m.laboratory_id = labId)

/-- The preferred-hours query (part_008 151-155); the `orderBy` only
permutes rows feeding a commutative sum. -/
def preferredQuery (db : DB) (dow : ℕ) : List DBPreferredHour :=
  db.preferredHours.filter fun p => decide (p.day_of_week = dow)

def toApptLight (a : DBAppointment) : ApptLight :=
  ⟨a.start_time, a.end_time, a.power_consumption, a.status⟩

def toPrefLight (p : DBPreferredHour) : PreferredHourLight :=
  ⟨p.day_of_week, p.start_time, p.end_time, p.power_consumption⟩

def toMachineLight (m : DBMachine) : MachineLight :=
  ⟨toString m.id, m.power_consumption⟩

/-- `AvailabilityOptions` (part_008 25-32); `duration = none` selects the
default of 2 hours. -/
structure AvailabilityOptions where
  day : ℕ
  dayOfWeek : ℕ
  laboratoryId : ℕ
  machineId : Option ℕ
  machineIds : Option (List ℕ)
  duration : Option ℚ
deriving DecidableEq

/-- The machine-id normalization of part_008 79-84. -/
def targetMachines (machineIds : Option (List ℕ)) (machineId : Option ℕ) :
    List ℕ :=
  let fallback := match machineId with
    | some m => [m]
    | none => []
  match machineIds with
  | some l => if l.length > 0 then l else fallback
  | none => fallback

structure AvailabilityResult where
  timeSlots : List TimeSlot
  efficiencyGroups : List EfficiencyGroup
deriving DecidableEq

/-- `AvailabilityService.checkAvailability` (part_008 69-196).  The TS
function can only reject by throwing, modelled by the `Except` error
channel; the empty-machine guard (part_008 85-94) does not throw — it
returns a normal result whose declared fields are both empty. -/
def checkAvailability (db : DB) (opts : AvailabilityOptions) :
    Except String AvailabilityResult :=
  let duration := opts.duration.getD 2
  let targets := targetMachines opts.machineIds opts.machineId
  if targets.length = 0 then
    .ok ⟨[], []⟩
  else
    let conflicting := (conflictingQuery db opts.laboratoryId opts.day targets).map toApptLight
    let load := (loadQuery db opts.day).map toApptLight
    let prefs := (preferredQuery db opts.dayOfWeek).map toPrefLight
    let machines := (machinesQuery db opts.laboratoryId targets).map toMachineLight
    let slots := generateTimeSlots (targets.map toString) duration conflicting prefs machines load
    .ok ⟨slots, groupSlotsByEfficiency slots⟩

/-- The `timeSlots` of a (always normal) `checkAvailability` call. -/
def resultSlots (db : DB) (opts : AvailabilityOptions) : List TimeSlot :=
  match checkAvailability db opts with
  | .ok r => r.timeSlots
  | .error _ => []

/-- The `efficiencyGroups` of a (always normal) `checkAvailability`
call. -/
def resultGroups (db : DB) (opts : AvailabilityOptions) : List EfficiencyGroup :=
  match checkAvailability db opts with
  | .ok r => r.efficiencyGroups
  | .error _ => []

/-! ### Structural lemmas about the slot pipeline -/

lemma spikeOf_start (lo : ℚ) (s : TimeSlot) : (spikeOf lo s).start_time = s.start_time := rfl

lemma spikeOf_end (lo : ℚ) (s : TimeSlot) : (spikeOf lo s).end_time = s.end_time := rfl

lemma spikeOf_available (lo : ℚ) (s : TimeSlot) : (spikeOf lo s).available = s.available := rfl

lemma spikeOf_power (lo : ℚ) (s : TimeSlot) :
    (spikeOf lo s).power_consumption = s.power_consumption := rfl

lemma spikeOf_reason (lo : ℚ) (s : TimeSlot) : (spikeOf lo s).reason = s.reason := rfl

lemma spikeOf_spike (lo : ℚ) (s : TimeSlot) :
    (spikeOf lo s).power_spike_percentage =
      if lo > 0 then (s.power_consumption - lo) / lo * 100 else s.power_consumption := rfl

lemma mkSlot_start (d : ℚ) (mids : List String) (c : List ApptLight)
    (p : List PreferredHourLight) (l : List ApptLight) (q : ℚ) :
    (mkSlot d mids c p l q).start_time = fmtMinutes q := rfl

lemma mkSlot_end (d : ℚ) (mids : List String) (c : List ApptLight)
    (p : List PreferredHourLight) (l : List ApptLight) (q : ℚ) :
    (mkSlot d mids c p l q).end_time = fmtMinutes (q + d) := rfl

lemma mkSlot_available (d : ℚ) (mids : List String) (c : List ApptLight)
    (p : List PreferredHourLight) (l : List ApptLight) (q : ℚ) :
    (mkSlot d mids c p l q).available =
      !(c.any fun a =>
        timeSlotsOverlap (fmtMinutes q) (fmtMinutes (q + d)) a.start_time a.end_time) := rfl

lemma mkSlot_reason_of_conflict {d : ℚ} {mids : List String} {c : List ApptLight}
    {p : List PreferredHourLight} {l : List ApptLight} {q : ℚ}
    (hc : (c.any fun a =>
        timeSlotsOverlap (fmtMinutes q) (fmtMinutes (q + d)) a.start_time a.end_time) = true) :
    (mkSlot d mids c p l q).reason = some Reason.reservado := by
  unfold mkSlot
  simp only [hc, if_true]

/-- Membership in the output of `generateTimeSlots`: each returned slot is
the spike-annotated candidate at some enumerated start hour. -/
lemma mem_generateTimeSlots {mids : List String} {dur : ℚ} {c : List ApptLight}
    {p : List PreferredHourLight} {m : List MachineLight} {l : List ApptLight}
    {slot : TimeSlot} :
    slot ∈ generateTimeSlots mids dur c p m l ↔
      ∃ q ∈ slotStarts dur,
        slot = spikeOf (lowestOf ((rawSlots mids dur c p l).insertionSort slotLE))
          (mkSlot dur mids c p l q) := by
  unfold generateTimeSlots rawSlots
  simp only [List.mem_map, List.mem_insertionSort]
  constructor
  · rintro ⟨s, hs, rfl⟩
    rcases hs with ⟨q, hq, rfl⟩
    exact ⟨q, hq, rfl⟩
  · rintro ⟨q, hq, rfl⟩
    exact ⟨mkSlot dur mids c p l q, ⟨q, hq, rfl⟩, rfl⟩

lemma bnot_eq_false {b : Bool} : ((!b) = false) ↔ b = true := by
  cases b <;> simp

/-- Unfolding of the conflict test against the conflict query: some
appointment of the requested laboratory, on the requested date, not
cancelled, linked to a requested machine, overlaps `[s, e)` strictly. -/
lemma conflict_iff (db : DB) (labId day : ℕ) (targets : List ℕ) (s e : ℕ) :
    (((conflictingQuery db labId day targets).map toApptLight).any
        (fun a => timeSlotsOverlap s e a.start_time a.end_time)) = true ↔
    ∃ a ∈ db.appointments, a.laboratory_id = labId ∧ a.day = day ∧
      notCancelled a.status = true ∧ (∃ m ∈ a.machine_ids, m ∈ targets) ∧
      a.start_time < e ∧ s < a.end_time := by
  simp [conflictingQuery, List.any_map, List.any_eq_true, List.mem_filter,
        timeSlotsOverlap, toApptLight, Function.comp, and_assoc]
  constructor
  · rintro ⟨x, ⟨a, ha, h1, h2, h3, h4, rfl⟩, h5, h6⟩
    exact ⟨a, ha, h1, h2, h3, h4, h6, h5⟩
  · rintro ⟨a, ha, h1, h2, h3, h4, h5, h6⟩
    exact ⟨_, ⟨a, ha, h1, h2, h3, h4, rfl⟩, h6, h5⟩

/-! ### Claim theorems -/

/-- C1: the claim states that every candidate slot's `power_consumption`
is machine base load + preferred-hour contribution + concurrent
contribution, so that with no overlapping preferred hours and no
concurrent appointments it equals the machine base load.  The code
computes `totalMachinePower` but never adds it: with one requested
machine of 2.5 kW and empty preferred/appointment lists, every one of
the 17 generated slots carries `power_consumption = 0`, not 2.5. -/
theorem C1_power_omits_machine_base_load :
    ((generateTimeSlots ["1"] 2 [] [] [⟨"1", 5/2⟩] []).map
        (fun s => s.power_consumption) = List.replicate 17 0)
    ∧ totalMachinePower [⟨"1", 5/2⟩] = 5/2
    ∧ (0 : ℚ) ≠ 5/2 := by
  refine ⟨by decide, by norm_num [totalMachinePower], by norm_num⟩

/-- C2: a generated slot is unavailable iff its half-open interval
strictly overlaps some non-cancelled appointment of the requested
laboratory on the requested date linked to at least one requested
machine; every blocked slot carries the reason `Horario ya reservado`,
and the slot's computed power plays no role in either fact. -/
theorem C2_unavailable_iff_machine_conflict
    (db : DB) (opts : AvailabilityOptions) (res : AvailabilityResult)
    (hres : checkAvailability db opts = .ok res)
    (slot : TimeSlot) (hslot : slot ∈ res.timeSlots) :
    (slot.available = false ↔
      ∃ a ∈ db.appointments,
        a.laboratory_id = opts.laboratoryId ∧ a.day = opts.day ∧
        notCancelled a.status = true ∧
        (∃ m ∈ a.machine_ids, m ∈ targetMachines opts.machineIds opts.machineId) ∧
        a.start_time < slot.end_time ∧ slot.start_time < a.end_time)
    ∧ (slot.available = false → slot.reason = some Reason.reservado) := by
  obtain ⟨ts, gs⟩ := res
  by_cases ht : (targetMachines opts.machineIds opts.machineId).length = 0
  · simp [checkAvailability, ht] at hres
    obtain ⟨h1, h2⟩ := hres
    subst h1
    exact absurd hslot (List.not_mem_nil _)
  · simp only [checkAvailability, ht, if_false, Except.ok.injEq,
               AvailabilityResult.mk.injEq] at hres
    obtain ⟨h1, h2⟩ := hres
    subst h1
    rcases (mem_generateTimeSlots
        (m := (machinesQuery db opts.laboratoryId
          (targetMachines opts.machineIds opts.machineId)).map toMachineLight)).mp hslot
      with ⟨q, hq, rfl⟩
    simp only [spikeOf_available, spikeOf_reason, spikeOf_start, spikeOf_end,
               mkSlot_available, mkSlot_start, mkSlot_end]
    constructor
    · rw [bnot_eq_false]
      exact conflict_iff db opts.laboratoryId opts.day
        (targetMachines opts.machineIds opts.machineId) (fmtMinutes q)
        (fmtMinutes (q + opts.duration.getD 2))
    · intro hfalse
      rw [bnot_eq_false] at hfalse
      exact mkSlot_reason_of_conflict hfalse

/-- Concrete snapshot for the C2 witness: one confirmed appointment
09:00-11:00 on machine 1 in laboratory 1. -/
def dbC2 : DB := ⟨[⟨1, 0, "confirmed", [1], 540, 660, 2⟩], [⟨1, 1, 3⟩], []⟩

def optsC2 : AvailabilityOptions := ⟨0, 1, 1, none, some [1], some 2⟩

def resC2 : AvailabilityResult :=
  match checkAvailability dbC2 optsC2 with
  | .ok r => r
  | .error _ => ⟨[], []⟩

/-- The candidate slot 10:30-12:30 of that query: blocked by the 09:00-11:00
appointment, with the reservation reason. -/
def slotC2 : TimeSlot := ⟨630, 750, false, 1/2, 1/2, ["1"], some .reservado⟩

/-- C2 witness: the spec's own concrete case (appointment 09:00-11:00 on
machine M, candidate slot 10:30-12:30 using M). -/
theorem C2_witness :
    checkAvailability dbC2 optsC2 = .ok resC2 ∧ slotC2 ∈ resC2.timeSlots ∧
    ((slotC2.available = false ↔
      ∃ a ∈ dbC2.appointments,
        a.laboratory_id = optsC2.laboratoryId ∧ a.day = optsC2.day ∧
        notCancelled a.status = true ∧
        (∃ m ∈ a.machine_ids, m ∈ targetMachines optsC2.machineIds optsC2.machineId) ∧
        a.start_time < slotC2.end_time ∧ slotC2.start_time < a.end_time)
    ∧ (slotC2.available = false → slotC2.reason = some Reason.reservado)) :=
  ⟨rfl, by decide,
   C2_unavailable_iff_machine_conflict dbC2 optsC2 resC2 rfl slotC2 (by decide)⟩

/-- The per-window contribution named by the spec:
`(overlapMinutes / slotDurationMinutes) * window.power_consumption`. -/
def prefContribution (startT endT : ℕ) (slotMinutes : ℚ)
    (p : PreferredHourLight) : ℚ :=
  ((overlapMinutes startT endT p.start_time p.end_time : ℚ) / slotMinutes)
    * p.power_consumption

lemma preferredWeighted_foldl (s e : ℕ) (d : ℚ) :
    ∀ (prefs : List PreferredHourLight) (init : ℚ),
      prefs.foldl (fun sum pref =>
        let mins := overlapMinutes s e pref.start_time pref.end_time
        if mins = 0 then sum
        else sum + ((mins : ℚ) / d) * pref.power_consumption) init
      = init + (prefs.map (prefContribution s e d)).sum
  | [], init => by simp
  | p :: ps, init => by
    simp only [List.foldl_cons, List.map_cons, List.sum_cons]
    by_cases h : overlapMinutes s e p.start_time p.end_time = 0
    · rw [if_pos h, preferredWeighted_foldl s e d ps init]
      simp [prefContribution, h]
    · rw [if_neg h, preferredWeighted_foldl s e d ps]
      simp only [prefContribution]
      ring

/-- C3: the preferred-hour reduce equals the sum, over all windows of the
weekday, of the spec's per-window contribution
`(overlapMinutes / slotDurationMinutes) * power`; a window with zero
overlap contributes the zero term of that sum.  Concrete cases: window
09:00-11:00 at 10 kW against slot 10:00-12:00 contributes `0.5 * 10 = 5`
(also visible as that candidate slot's whole power when nothing else
overlaps), and window 13:00-14:00 against slot 08:00-10:00 contributes 0. -/
theorem C3_preferred_weighted_contribution :
    (∀ (s e : ℕ) (d : ℚ) (prefs : List PreferredHourLight),
      preferredWeighted s e d prefs = (prefs.map (prefContribution s e d)).sum)
    ∧ preferredWeighted 600 720 120 [⟨2, 540, 660, 10⟩] = 5
    ∧ (mkSlot 2 ["1"] [] [⟨2, 540, 660, 10⟩] [] 10).power_consumption = 5
    ∧ prefContribution 480 600 120 ⟨2, 780, 840, 10⟩ = 0 := by
  refine ⟨fun s e d prefs => ?_, by decide, by decide, by decide⟩
  have h := preferredWeighted_foldl s e d prefs 0
  rw [preferredWeighted, h, zero_add]

lemma generateTimeSlots_eq (mids : List String) (dur : ℚ)
    (c : List ApptLight) (p : List PreferredHourLight) (m : List MachineLight)
    (l : List ApptLight) :
    generateTimeSlots mids dur c p m l =
      ((rawSlots mids dur c p l).insertionSort slotLE).map
        (spikeOf (lowestOf ((rawSlots mids dur c p l).insertionSort slotLE))) := rfl

/-- The head-or-zero of a power-sorted list is a lower bound of it. -/
lemma lowestOf_min {l : List TimeSlot} (hsort : l.Sorted slotLE) :
    ∀ s ∈ l, lowestOf l ≤ s.power_consumption := by
  cases l with
  | nil => intro s hs; exact absurd hs (List.not_mem_nil _)
  | cons s0 rest =>
    intro s hs
    rcases List.mem_cons.mp hs with rfl | hmem
    · exact le_refl _
    · rcases List.rel_of_sorted_cons hsort s hmem with h | ⟨h, _⟩
      · exact le_of_lt h
      · exact le_of_eq h

/-- C4: on a non-empty output of `generateTimeSlots`, the minimum
`power_consumption` value `lowest` exists among the slots, every slot's
`power_spike_percentage` is `(power - lowest) / lowest * 100` when
`lowest > 0` and the slot's own raw power when `lowest = 0`, and when
`lowest > 0` every minimum-power slot has spike exactly 0. -/
theorem C4_power_spike_formula (mids : List String) (dur : ℚ)
    (c : List ApptLight) (p : List PreferredHourLight) (m : List MachineLight)
    (l : List ApptLight)
    (hne : generateTimeSlots mids dur c p m l ≠ []) :
    ∃ lowest : ℚ,
      lowest ∈ (generateTimeSlots mids dur c p m l).map (fun s => s.power_consumption)
      ∧ (∀ s ∈ generateTimeSlots mids dur c p m l, lowest ≤ s.power_consumption)
      ∧ (∀ s ∈ generateTimeSlots mids dur c p m l,
          s.power_spike_percentage =
            if lowest > 0 then (s.power_consumption - lowest) / lowest * 100
            else s.power_consumption)
      ∧ (0 < lowest → ∀ s ∈ generateTimeSlots mids dur c p m l,
          s.power_consumption = lowest → s.power_spike_percentage = 0) := by
  rw [generateTimeSlots_eq] at hne ⊢
  set sorted := (rawSlots mids dur c p l).insertionSort slotLE with hsorted
  have hsort : sorted.Sorted slotLE := List.sorted_insertionSort slotLE _
  have hmin : ∀ s ∈ sorted, lowestOf sorted ≤ s.power_consumption := lowestOf_min hsort
  obtain ⟨s0, rest, h0⟩ : ∃ s0 rest, sorted = s0 :: rest := by
    cases hs : sorted with
    | nil => rw [hs] at hne; exact absurd rfl hne
    | cons a t => exact ⟨a, t, rfl⟩
  refine ⟨lowestOf sorted, ?_, ?_, ?_, ?_⟩
  · rw [h0]
    exact List.mem_map.mpr ⟨spikeOf (lowestOf (s0 :: rest)) s0,
      List.mem_map.mpr ⟨s0, List.mem_cons_self _ _, rfl⟩, rfl⟩
  · intro s hs
    rcases List.mem_map.mp hs with ⟨t, ht, rfl⟩
    rw [spikeOf_power]
    exact hmin t ht
  · intro s hs
    rcases List.mem_map.mp hs with ⟨t, ht, rfl⟩
    rw [spikeOf_power, spikeOf_spike]
  · intro hpos s hs hsp
    rcases List.mem_map.mp hs with ⟨t, ht, rfl⟩
    rw [spikeOf_power] at hsp
    rw [spikeOf_spike, if_pos hpos, hsp]
    simp

/-- C4 witness: a three-slot run (duration 9 h) with one preferred-hour
window, whose cheapest slot has zero overlap and power 0. -/
theorem C4_witness :
    generateTimeSlots ["1"] 9 [] [⟨2, 480, 540, 2⟩] [] [] ≠ [] ∧
    (∃ lowest : ℚ,
      lowest ∈ (generateTimeSlots ["1"] 9 [] [⟨2, 480, 540, 2⟩] [] []).map
        (fun s => s.power_consumption)
      ∧ (∀ s ∈ generateTimeSlots ["1"] 9 [] [⟨2, 480, 540, 2⟩] [] [],
          lowest ≤ s.power_consumption)
      ∧ (∀ s ∈ generateTimeSlots ["1"] 9 [] [⟨2, 480, 540, 2⟩] [] [],
          s.power_spike_percentage =
            if lowest > 0 then (s.power_consumption - lowest) / lowest * 100
            else s.power_consumption)
      ∧ (0 < lowest → ∀ s ∈ generateTimeSlots ["1"] 9 [] [⟨2, 480, 540, 2⟩] [] [],
          s.power_consumption = lowest → s.power_spike_percentage = 0)) :=
  ⟨by decide, C4_power_spike_formula ["1"] 9 [] [⟨2, 480, 540, 2⟩] [] [] (by decide)⟩

/-! ### Grouping lemmas -/

lemma mem_bandSlots {lo : ℚ} {b : Band} {l : List TimeSlot} {s : TimeSlot} :
    s ∈ bandSlots lo b l ↔ s ∈ l ∧ pctInBand b (pctOf lo s) = true := by
  simp [bandSlots, List.mem_filter]

lemma pct_nonneg {l : List TimeSlot} (hsort : l.Sorted slotLE) {s : TimeSlot}
    (hs : s ∈ l) : 0 ≤ pctOf (lowestOf l) s := by
  unfold pctOf
  split_ifs with h
  · have hle := lowestOf_min hsort s hs
    have hq : 0 ≤ (s.power_consumption - lowestOf l) / lowestOf l :=
      div_nonneg (sub_nonneg.mpr hle) (le_of_lt h)
    have h100 : (0:ℚ) ≤ 100 := by norm_num
    exact mul_nonneg hq h100
  · exact le_refl 0

/-- The five percentage bands are pairwise disjoint and cover `[0, ∞)`:
each non-negative percentage lies in exactly one of them. -/
lemma ranges_countP_one {pct : ℚ} (h0 : 0 ≤ pct) :
    (ranges.countP fun b => pctInBand b pct) = 1 := by
  rcases lt_or_le pct 10 with h1 | h1
  · have n2 : ¬ (10:ℚ) ≤ pct := not_le.mpr h1
    have n3 : ¬ (30:ℚ) ≤ pct := not_le.mpr (h1.trans (by norm_num))
    have n4 : ¬ (50:ℚ) ≤ pct := not_le.mpr (h1.trans (by norm_num))
    have n5 : ¬ (500:ℚ) ≤ pct := not_le.mpr (h1.trans (by norm_num))
    simp [ranges, pctInBand, List.countP_cons, h0, h1, n2, n3, n4, n5]
  · rcases lt_or_le pct 30 with h2 | h2
    · have n1 : ¬ pct < 10 := not_lt.mpr h1
      have n3 : ¬ (30:ℚ) ≤ pct := not_le.mpr h2
      have n4 : ¬ (50:ℚ) ≤ pct := not_le.mpr (h2.trans (by norm_num))
      have n5 : ¬ (500:ℚ) ≤ pct := not_le.mpr (h2.trans (by norm_num))
      simp [ranges, pctInBand, List.countP_cons, h0, h1, h2, n1, n3, n4, n5]
    · rcases lt_or_le pct 50 with h3 | h3
      · have n1 : ¬ pct < 10 := not_lt.mpr h1
        have n2 : ¬ pct < 30 := not_lt.mpr h2
        have n4 : ¬ (50:ℚ) ≤ pct := not_le.mpr h3
        have n5 : ¬ (500:ℚ) ≤ pct := not_le.mpr (h3.trans (by norm_num))
        simp [ranges, pctInBand, List.countP_cons, h0, h2, h3, n1, n2, n4, n5]
      · rcases lt_or_le pct 500 with h4 | h4
        · have n1 : ¬ pct < 10 := not_lt.mpr h1
          have n2 : ¬ pct < 30 := not_lt.mpr h2
          have n3 : ¬ pct < 50 := not_lt.mpr h3
          have n5 : ¬ (500:ℚ) ≤ pct := not_le.mpr h4
          simp [ranges, pctInBand, List.countP_cons, h0, h3, h4, n1, n2, n3, n5]
        · have n1 : ¬ pct < 10 := not_lt.mpr h1
          have n2 : ¬ pct < 30 := not_lt.mpr h2
          have n3 : ¬ pct < 50 := not_lt.mpr h3
          have n4 : ¬ pct < 500 := not_lt.mpr h4
          simp [ranges, pctInBand, List.countP_cons, h0, h4, n1, n2, n3, n4]

lemma count_flatten_filters {α : Type} [DecidableEq α] (l : List α) (a : α) :
    ∀ ps : List (α → Bool),
      ((ps.map fun p => l.filter p).flatten).count a
        = (ps.countP fun p => p a) * l.count a
  | [] => by simp
  | p :: ps => by
    simp only [List.map_cons, List.flatten_cons, List.count_append,
      List.countP_cons, count_flatten_filters l a ps]
    by_cases h : p a = true
    · rw [List.count_filter h, if_pos h]
      ring
    · have hz : (l.filter p).count a = 0 := by
        rw [List.count_eq_zero]
        intro hmem
        exact h (List.mem_filter.mp hmem).2
      rw [hz, if_neg h]
      ring

lemma flatten_bandGroups (lo : ℚ) (sorted : List TimeSlot) :
    ∀ rs : List Band,
      ((rs.filterMap (bandGroup lo sorted)).map fun g => g.slots).flatten
        = (rs.map fun b => bandSlots lo b sorted).flatten
  | [] => by simp
  | b :: rs => by
    simp only [List.filterMap_cons, List.map_cons, List.flatten_cons]
    cases hb : bandSlots lo b sorted with
    | nil =>
      simp [bandGroup, hb, flatten_bandGroups lo sorted rs]
    | cons s0 tl =>
      simp [bandGroup, hb, mkGroup, flatten_bandGroups lo sorted rs]

lemma countP_bandGroups (lo : ℚ) (sorted : List TimeSlot) {s : TimeSlot}
    (hs : s ∈ sorted) :
    ∀ rs : List Band,
      ((rs.filterMap (bandGroup lo sorted)).countP fun g => decide (s ∈ g.slots))
        = rs.countP fun b => pctInBand b (pctOf lo s)
  | [] => by simp
  | b :: rs => by
    simp only [List.filterMap_cons, List.countP_cons]
    cases hb : bandSlots lo b sorted with
    | nil =>
      have hnotin : ¬ pctInBand b (pctOf lo s) = true := by
        intro hband
        have hmem : s ∈ bandSlots lo b sorted := mem_bandSlots.mpr ⟨hs, hband⟩
        rw [hb] at hmem
        exact absurd hmem (List.not_mem_nil s)
      simp [bandGroup, hb, countP_bandGroups lo sorted hs rs, hnotin]
    | cons s0 tl =>
      have hmemiff : s ∈ (mkGroup lo b s0 (s0 :: tl)).slots ↔
          pctInBand b (pctOf lo s) = true := by
        have hmb : s ∈ bandSlots lo b sorted ↔
            (s ∈ sorted ∧ pctInBand b (pctOf lo s) = true) := mem_bandSlots
        rw [hb] at hmb
        simpa [mkGroup, hs] using hmb
      by_cases hband : pctInBand b (pctOf lo s) = true
      · simp [bandGroup, hb, List.countP_cons, countP_bandGroups lo sorted hs rs,
              hband, hmemiff.mpr hband]
      · have hnm : ¬ s ∈ (mkGroup lo b s0 (s0 :: tl)).slots :=
          fun hc => hband (hmemiff.mp hc)
        simp [bandGroup, hb, List.countP_cons, countP_bandGroups lo sorted hs rs,
              hband, hnm]

lemma bandGroup_some {lo : ℚ} {sorted : List TimeSlot} {b : Band}
    {g : EfficiencyGroup} (h : bandGroup lo sorted b = some g) :
    ∃ s0 tl, bandSlots lo b sorted = s0 :: tl ∧ g = mkGroup lo b s0 (s0 :: tl) := by
  unfold bandGroup at h
  cases hb : bandSlots lo b sorted with
  | nil => rw [hb] at h; exact absurd h (by simp)
  | cons s0 tl =>
    rw [hb] at h
    simp only [Option.some.injEq] at h
    exact ⟨s0, tl, rfl, h.symm⟩

lemma foldl_start_min :
    ∀ (l : List TimeSlot) (init : ℕ),
      ((l.foldl (fun mn s => if s.start_time < mn then s.start_time else mn) init) = init
        ∨ ∃ s ∈ l, (l.foldl (fun mn s => if s.start_time < mn then s.start_time else mn) init) = s.start_time)
      ∧ (l.foldl (fun mn s => if s.start_time < mn then s.start_time else mn) init) ≤ init
      ∧ ∀ s ∈ l, (l.foldl (fun mn s => if s.start_time < mn then s.start_time else mn) init) ≤ s.start_time
  | [], init => by simp
  | t :: l, init => by
    simp only [List.foldl_cons]
    obtain ⟨h1, h2, h3⟩ := foldl_start_min l (if t.start_time < init then t.start_time else init)
    have hinit : (if t.start_time < init then t.start_time else init) ≤ init := by
      split_ifs with h
      · exact le_of_lt h
      · exact le_refl _
    have htst : (if t.start_time < init then t.start_time else init) ≤ t.start_time := by
      split_ifs with h
      · exact le_refl _
      · exact not_lt.mp h
    refine ⟨?_, le_trans h2 hinit, ?_⟩
    · rcases h1 with h1 | ⟨s, hs, hres⟩
      · rw [h1]
        split_ifs with h
        · exact Or.inr ⟨t, List.mem_cons_self _ _, rfl⟩
        · exact Or.inl rfl
      · exact Or.inr ⟨s, List.mem_cons_of_mem _ hs, hres⟩
    · intro s hs
      rcases List.mem_cons.mp hs with rfl | hmem
      · exact le_trans h2 htst
      · exact h3 s hmem

lemma foldl_end_max :
    ∀ (l : List TimeSlot) (init : ℕ),
      ((l.foldl (fun mx s => if s.end_time > mx then s.end_time else mx) init) = init
        ∨ ∃ s ∈ l, (l.foldl (fun mx s => if s.end_time > mx then s.end_time else mx) init) = s.end_time)
      ∧ init ≤ (l.foldl (fun mx s => if s.end_time > mx then s.end_time else mx) init)
      ∧ ∀ s ∈ l, s.end_time ≤ (l.foldl (fun mx s => if s.end_time > mx then s.end_time else mx) init)
  | [], init => by simp
  | t :: l, init => by
    simp only [List.foldl_cons]
    obtain ⟨h1, h2, h3⟩ := foldl_end_max l (if t.end_time > init then t.end_time else init)
    have hinit : init ≤ (if t.end_time > init then t.end_time else init) := by
      split_ifs with h
      · exact le_of_lt h
      · exact le_refl _
    have htst : t.end_time ≤ (if t.end_time > init then t.end_time else init) := by
      split_ifs with h
      · exact le_refl _
      · exact not_lt.mp h
    refine ⟨?_, le_trans hinit h2, ?_⟩
    · rcases h1 with h1 | ⟨s, hs, hres⟩
      · rw [h1]
        split_ifs with h
        · exact Or.inr ⟨t, List.mem_cons_self _ _, rfl⟩
        · exact Or.inl rfl
      · exact Or.inr ⟨s, List.mem_cons_of_mem _ hs, hres⟩
    · intro s hs
      rcases List.mem_cons.mp hs with rfl | hmem
      · exact le_trans htst h2
      · exact h3 s hmem

/-- Snapshot whose generated slots have minimum power 0: one 20 kW
preferred window 08:00-10:00 on the requested weekday, no appointments.
The 08:00-10:00 candidate fully overlaps the window, so it gets
power 20 and (since the cheapest slot has power 0) stored
`power_spike_percentage = 20`. -/
def dbC5x : DB := ⟨[], [⟨1, 1, 3⟩], [⟨1, 480, 600, 20⟩]⟩

def optsC5x : AvailabilityOptions := ⟨0, 1, 1, none, some [1], some 2⟩

/-- C5 counterexample: in the reachable `lowest = 0` state the grouping
is NOT evaluated against the slots' `power_spike_percentage`: the
pipeline stores spike 20 on the 08:00 slot (the claim's `[10,30)`
"Good" band), yet `groupSlotsByEfficiency` recomputes every percentage
with the `: 0` fallback and emits a single all-encompassing "optimal"
group containing that slot. -/
theorem C5_bands_counterexample :
    (∃ s ∈ resultSlots dbC5x optsC5x, s.power_spike_percentage = 20)
    ∧ (∀ g ∈ resultGroups dbC5x optsC5x, g.id = "optimal")
    ∧ (∃ g ∈ resultGroups dbC5x optsC5x, ∃ s ∈ g.slots,
        s.power_spike_percentage = 20
        ∧ pctInBand ⟨10, some 30, "Bueno", "good"⟩ s.power_spike_percentage = true
        ∧ ¬ pctInBand ⟨0, some 10, "Óptimo", "optimal"⟩ s.power_spike_percentage = true) := by
  refine ⟨by decide, by decide, by decide⟩

/-- C5 amended: when the minimum power `low` among the slots is positive
and the stored spike percentages are consistent with it (exactly the
state `generateTimeSlots` produces whenever `lowest > 0`, per C4), each
emitted group corresponds to one of the five fixed ordered bands
`[0,10) Óptimo / [10,30) Bueno / [30,50) Regular / [50,500) Alto /
[500,∞) Muy Alto`, a slot belongs to the group exactly when its
`power_spike_percentage` lies in that band, and each group's
`time_range` is the earliest member `start_time` paired with the latest
member `end_time`, recomputed by clock time.  In the degenerate
`lowest = 0` state the grouping ignores the stored spike percentages
(see the counterexample), so the restriction to `0 < low` is forced. -/
theorem C5_efficiency_bands_and_time_range (slots : List TimeSlot) (low : ℚ)
    (hne : slots ≠ [])
    (hmem : low ∈ slots.map fun s => s.power_consumption)
    (hmin : ∀ s ∈ slots, low ≤ s.power_consumption)
    (hlow : 0 < low)
    (hcons : ∀ s ∈ slots,
      s.power_spike_percentage = (s.power_consumption - low) / low * 100) :
    ∀ g ∈ groupSlotsByEfficiency slots, ∃ b ∈ ranges,
      g.id = b.id ∧ g.label = b.label ∧
      (∀ s ∈ slots, (s ∈ g.slots ↔ pctInBand b s.power_spike_percentage = true)) ∧
      ((∃ s ∈ g.slots, s.start_time = g.time_range.1)
        ∧ ∀ s ∈ g.slots, g.time_range.1 ≤ s.start_time) ∧
      ((∃ s ∈ g.slots, s.end_time = g.time_range.2)
        ∧ ∀ s ∈ g.slots, s.end_time ≤ g.time_range.2) := by
  have hlen : ¬ slots.length = 0 := by simpa [List.length_eq_zero] using hne
  rw [groupSlotsByEfficiency, if_neg hlen]
  have hsort : (slots.insertionSort slotLE).Sorted slotLE :=
    List.sorted_insertionSort slotLE slots
  have heq : lowestOf (slots.insertionSort slotLE) = low := by
    rcases List.mem_map.mp hmem with ⟨t, ht, hlow_t⟩
    have ht' : t ∈ slots.insertionSort slotLE := (List.mem_insertionSort slotLE).mpr ht
    have hle1 : lowestOf (slots.insertionSort slotLE) ≤ low := by
      rw [← hlow_t]
      exact lowestOf_min hsort t ht'
    have hle2 : low ≤ lowestOf (slots.insertionSort slotLE) := by
      cases hs : slots.insertionSort slotLE with
      | nil =>
        have hp := List.perm_insertionSort slotLE slots
        rw [hs] at hp
        exact absurd hp.symm.eq_nil hne
      | cons s0 rest =>
        have hs0 : s0 ∈ slots := (List.mem_insertionSort slotLE).mp
          (by rw [hs]; exact List.mem_cons_self _ _)
        simpa [lowestOf] using hmin s0 hs0
    exact le_antisymm hle1 hle2
  have hpct : ∀ s ∈ slots,
      pctOf (lowestOf (slots.insertionSort slotLE)) s = s.power_spike_percentage := by
    intro s hs
    rw [pctOf, heq, if_pos hlow, hcons s hs]
  intro g hg
  rcases List.mem_filterMap.mp hg with ⟨b, hb, hsome⟩
  rcases bandGroup_some hsome with ⟨s0, tl, hband, rfl⟩
  refine ⟨b, hb, by simp [mkGroup], by simp [mkGroup], ?_, ?_, ?_⟩
  · intro s hs
    have hslots : (mkGroup (lowestOf (slots.insertionSort slotLE)) b s0 (s0 :: tl)).slots
        = s0 :: tl := by simp [mkGroup]
    rw [hslots, ← hband, mem_bandSlots, hpct s hs]
    simp [(List.mem_insertionSort slotLE), hs]
  · have htr : (mkGroup (lowestOf (slots.insertionSort slotLE)) b s0 (s0 :: tl)).time_range.1
        = (s0 :: tl).foldl (fun mn s => if s.start_time < mn then s.start_time else mn)
            s0.start_time := by
      simp [mkGroup]
    have hslots : (mkGroup (lowestOf (slots.insertionSort slotLE)) b s0 (s0 :: tl)).slots
        = s0 :: tl := by simp [mkGroup]
    obtain ⟨h1, _, h3⟩ := foldl_start_min (s0 :: tl) s0.start_time
    constructor
    · rcases h1 with h1 | ⟨s, hsmem, hres⟩
      · exact ⟨s0, by rw [hslots]; exact List.mem_cons_self _ _, by rw [htr, h1]⟩
      · exact ⟨s, by rw [hslots]; exact hsmem, by rw [htr, hres]⟩
    · intro s hsmem
      rw [hslots] at hsmem
      rw [htr]
      exact h3 s hsmem
  · have htr : (mkGroup (lowestOf (slots.insertionSort slotLE)) b s0 (s0 :: tl)).time_range.2
        = (s0 :: tl).foldl (fun mx s => if s.end_time > mx then s.end_time else mx)
            s0.end_time := by
      simp [mkGroup]
    have hslots : (mkGroup (lowestOf (slots.insertionSort slotLE)) b s0 (s0 :: tl)).slots
        = s0 :: tl := by simp [mkGroup]
    obtain ⟨h1, _, h3⟩ := foldl_end_max (s0 :: tl) s0.end_time
    constructor
    · rcases h1 with h1 | ⟨s, hsmem, hres⟩
      · exact ⟨s0, by rw [hslots]; exact List.mem_cons_self _ _, by rw [htr, h1]⟩
      · exact ⟨s, by rw [hslots]; exact hsmem, by rw [htr, hres]⟩
    · intro s hsmem
      rw [hslots] at hsmem
      rw [htr]
      exact h3 s hsmem

/-- Two-slot list with consistent spike percentages relative to its
minimum power 2: used by the C5 and C6 witnesses. -/
def slotsW : List TimeSlot :=
  [⟨480, 600, true, 2, 0, [], none⟩, ⟨540, 660, true, 3, 50, [], none⟩]

/-- C5 witness: on the two-slot list the groups are the Óptimo band
(spike 0) and the Alto band (spike 50), with correctly recomputed
time ranges. -/
theorem C5_witness :
    slotsW ≠ [] ∧ (2:ℚ) ∈ slotsW.map (fun s => s.power_consumption)
    ∧ (∀ s ∈ slotsW, (2:ℚ) ≤ s.power_consumption) ∧ (0:ℚ) < 2
    ∧ (∀ s ∈ slotsW,
        s.power_spike_percentage = (s.power_consumption - 2) / 2 * 100)
    ∧ (∀ g ∈ groupSlotsByEfficiency slotsW, ∃ b ∈ ranges,
      g.id = b.id ∧ g.label = b.label ∧
      (∀ s ∈ slotsW, (s ∈ g.slots ↔ pctInBand b s.power_spike_percentage = true)) ∧
      ((∃ s ∈ g.slots, s.start_time = g.time_range.1)
        ∧ ∀ s ∈ g.slots, g.time_range.1 ≤ s.start_time) ∧
      ((∃ s ∈ g.slots, s.end_time = g.time_range.2)
        ∧ ∀ s ∈ g.slots, s.end_time ≤ g.time_range.2)) :=
  ⟨by decide, by decide, by decide, by norm_num, by decide,
   C5_efficiency_bands_and_time_range slotsW 2 (by decide) (by decide)
     (by decide) (by norm_num) (by decide)⟩

/-- C6: for a non-empty input, the emitted groups' slot lists together
are a permutation of the input, every input slot lies in exactly one
group, and no emitted group is empty. -/
theorem C6_grouping_partition (slots : List TimeSlot) (hne : slots ≠ []) :
    (((groupSlotsByEfficiency slots).map fun g => g.slots).flatten).Perm slots
    ∧ (∀ s ∈ slots,
        ((groupSlotsByEfficiency slots).countP fun g => decide (s ∈ g.slots)) = 1)
    ∧ (∀ g ∈ groupSlotsByEfficiency slots, g.slots ≠ []) := by
  have hlen : ¬ slots.length = 0 := by simpa [List.length_eq_zero] using hne
  rw [groupSlotsByEfficiency, if_neg hlen]
  have hsort : (slots.insertionSort slotLE).Sorted slotLE :=
    List.sorted_insertionSort slotLE slots
  have hperm : (slots.insertionSort slotLE).Perm slots :=
    List.perm_insertionSort slotLE slots
  refine ⟨?_, ?_, ?_⟩
  · rw [flatten_bandGroups]
    refine List.Perm.trans (List.perm_iff_count.mpr fun a => ?_) hperm
    have hrw : (ranges.map fun b =>
        bandSlots (lowestOf (slots.insertionSort slotLE)) b (slots.insertionSort slotLE))
        = ((ranges.map fun b => fun s =>
            pctInBand b (pctOf (lowestOf (slots.insertionSort slotLE)) s)).map
              fun p => (slots.insertionSort slotLE).filter p) := by
      rw [List.map_map]
      rfl
    rw [hrw, count_flatten_filters, List.countP_map]
    by_cases ha : a ∈ slots.insertionSort slotLE
    · have h1 : ((ranges.countP fun b =>
          pctInBand b (pctOf (lowestOf (slots.insertionSort slotLE)) a))) = 1 :=
        ranges_countP_one (pct_nonneg hsort ha)
      have hcomp : ((fun p => p a) ∘ fun b => fun s =>
          pctInBand b (pctOf (lowestOf (slots.insertionSort slotLE)) s))
          = fun b => pctInBand b (pctOf (lowestOf (slots.insertionSort slotLE)) a) := rfl
      rw [hcomp, h1, one_mul]
    · rw [List.count_eq_zero.mpr ha]
      ring
  · intro s hs
    have hs' : s ∈ slots.insertionSort slotLE := (List.mem_insertionSort slotLE).mpr hs
    rw [countP_bandGroups _ _ hs']
    exact ranges_countP_one (pct_nonneg hsort hs')
  · intro g hg
    rcases List.mem_filterMap.mp hg with ⟨b, _, hsome⟩
    rcases bandGroup_some hsome with ⟨s0, tl, _, rfl⟩
    simp [mkGroup]

/-- C6 witness: the two-slot list splits into two singleton groups whose
union is the input. -/
theorem C6_witness :
    slotsW ≠ [] ∧
    ((((groupSlotsByEfficiency slotsW).map fun g => g.slots).flatten).Perm slotsW
    ∧ (∀ s ∈ slotsW,
        ((groupSlotsByEfficiency slotsW).countP fun g => decide (s ∈ g.slots)) = 1)
    ∧ (∀ g ∈ groupSlotsByEfficiency slotsW, g.slots ≠ [])) :=
  ⟨by decide, C6_grouping_partition slotsW (by decide)⟩

/-! ### The mock-backed recommendation engine
(src/lib/availability-service.ts `generateRecommendations`, 295-327)

Only `bestSlot` is claimed about; the remaining fields of the
recommendations object (`energyEfficientSlots`, `alternativeDates`) are
not modelled.  `bestSlot = availableSlots.sort(cmp)[0]` where the
comparator returns the power difference when it exceeds 0.5 kW in
absolute value and the start-time difference otherwise; the stable
array sort is modelled by `List.insertionSort` on `cmp ≤ 0`. -/

/-- The comparator of `generateRecommendations` (the `powerDiff` local
is inlined). -/
def cmpBest (a b : TimeSlot) : ℚ :=
  if 1/2 < |a.power_consumption - b.power_consumption|
  then a.power_consumption - b.power_consumption
  else (a.start_time : ℚ) - (b.start_time : ℚ)

/-- `a` sorts no later than `b`: comparator value ≤ 0. -/
def rBest (a b : TimeSlot) : Prop := cmpBest a b ≤ 0

instance : DecidableRel rBest := fun _a _b =>
  inferInstanceAs (Decidable (_ ≤ _))

/-- `timeSlots.filter((slot) => slot.available)`. -/
def availableSlots (ts : List TimeSlot) : List TimeSlot :=
  ts.filter fun s => s.available

/-- `generateRecommendations`: the head of the available slots sorted by
the comparator. -/
def bestSlot (ts : List TimeSlot) : Option TimeSlot :=
  ((availableSlots ts).insertionSort rBest).head?

/-- The property C7 claims of `bestSlot`, written from the claim text:
every other available slot is within 0.5 kW below it at worst, and among
power-ties (difference at most 0.5 kW) it starts earliest. -/
def bestSlotLexMin (best : TimeSlot) (avail : List TimeSlot) : Prop :=
  ∀ s ∈ avail,
    best.power_consumption - 1/2 ≤ s.power_consumption ∧
    (|s.power_consumption - best.power_consumption| ≤ 1/2 →
      best.start_time ≤ s.start_time)

instance (best : TimeSlot) (avail : List TimeSlot) :
    Decidable (bestSlotLexMin best avail) := by
  unfold bestSlotLexMin
  infer_instance

/-- Three available slots on which the 0.5 kW tie relation is cyclic. -/
def slotsC7 : List TimeSlot :=
  [⟨600, 720, true, 1, 0, [], none⟩,
   ⟨540, 660, true, 7/5, 0, [], none⟩,
   ⟨480, 600, true, 9/5, 0, [], none⟩]

/-- C7 counterexample: with powers 1, 1.4, 1.8 kW at starts 10:00, 09:00,
08:00 the within-0.5-kW tie relation is not transitive; the code returns
the 10:00 slot, which is not lexicographically minimal (the 09:00 slot is
power-tied with it but earlier), and in fact no slot of this input
satisfies the claimed property, whatever order the sort returns. -/
theorem C7_bestSlot_counterexample :
    bestSlot slotsC7 = some ⟨600, 720, true, 1, 0, [], none⟩
    ∧ ¬ bestSlotLexMin ⟨600, 720, true, 1, 0, [], none⟩ (availableSlots slotsC7)
    ∧ ∀ s ∈ availableSlots slotsC7, ¬ bestSlotLexMin s (availableSlots slotsC7) := by
  refine ⟨by decide, by decide, by decide⟩

lemma cmpBest_antisymm (a b : TimeSlot) : cmpBest b a = - cmpBest a b := by
  unfold cmpBest
  have habs : |b.power_consumption - a.power_consumption|
      = |a.power_consumption - b.power_consumption| := abs_sub_comm _ _
  rw [habs]
  split_ifs with h
  · ring
  · ring

lemma rBest_total (a b : TimeSlot) : rBest a b ∨ rBest b a := by
  unfold rBest
  rw [cmpBest_antisymm a b]
  rcases le_total (cmpBest a b) 0 with h | h
  · exact Or.inl h
  · exact Or.inr (by linarith)

lemma rBest_refl (a : TimeSlot) : rBest a a := by
  unfold rBest cmpBest
  simp

/-- Inserting into a locally ordered list keeps adjacent pairs ordered;
only totality of the relation is needed, not transitivity. -/
lemma chain'_orderedInsert (x : TimeSlot) :
    ∀ l : List TimeSlot, l.Chain' rBest → (l.orderedInsert rBest x).Chain' rBest
  | [], _ => by simp [List.orderedInsert]
  | y :: l, hch => by
    simp only [List.orderedInsert]
    split_ifs with h
    · exact List.chain'_cons.mpr ⟨h, hch⟩
    · have hyx := (rBest_total x y).resolve_left h
      cases l with
      | nil =>
        simp [List.orderedInsert, List.chain'_cons, hyx]
      | cons z t =>
        have hch_zt : (z :: t).Chain' rBest := (List.chain'_cons.mp hch).2
        have hyz : rBest y z := (List.chain'_cons.mp hch).1
        have hrec := chain'_orderedInsert x (z :: t) hch_zt
        simp only [List.orderedInsert] at hrec ⊢
        split_ifs with hz
        · rw [if_pos hz] at hrec
          exact List.chain'_cons.mpr ⟨hyx, hrec⟩
        · rw [if_neg hz] at hrec
          exact List.chain'_cons.mpr ⟨hyz, hrec⟩

lemma chain'_insertionSort_rBest :
    ∀ l : List TimeSlot, (l.insertionSort rBest).Chain' rBest
  | [] => by simp
  | x :: l => chain'_orderedInsert x _ (chain'_insertionSort_rBest l)

/-- A chain head is below every chain member once the relation is
transitive on the ambient list. -/
lemma chain_rel_of_trans {avail : List TimeSlot}
    (htrans : ∀ a ∈ avail, ∀ b ∈ avail, ∀ c ∈ avail,
      rBest a b → rBest b c → rBest a c) :
    ∀ (l : List TimeSlot) (x : TimeSlot), x ∈ avail → (∀ y ∈ l, y ∈ avail) →
      List.Chain rBest x l → ∀ y ∈ l, rBest x y
  | [], x, _, _, _ => by simp
  | z :: t, x, hx, hsub, hch => by
    rcases List.chain_cons.mp hch with ⟨hxz, hch2⟩
    intro y hy
    rcases List.mem_cons.mp hy with rfl | hyt
    · exact hxz
    · have hz : z ∈ avail := hsub z (List.mem_cons_self _ _)
      have ht : ∀ w ∈ t, w ∈ avail := fun w hw => hsub w (List.mem_cons_of_mem _ hw)
      have hzy := chain_rel_of_trans htrans t z hz ht hch2 y hyt
      exact htrans x hx z hz y (ht y hyt) hxz hzy

/-- C7 amended: whenever the comparator is transitive on the available
slots (the 0.5 kW tie relation is not transitive in general, see the
counterexample), `bestSlot` does satisfy the claimed lexicographic-key
minimality: every other available slot has power at least
`best.power - 0.5`, and every slot power-tied with `best` (difference at
most 0.5 kW) starts no earlier than `best`. -/
theorem C7_bestSlot_lex_min (ts : List TimeSlot) (best : TimeSlot)
    (hbest : bestSlot ts = some best)
    (htrans : ∀ a ∈ availableSlots ts, ∀ b ∈ availableSlots ts,
      ∀ c ∈ availableSlots ts, rBest a b → rBest b c → rBest a c) :
    bestSlotLexMin best (availableSlots ts) := by
  unfold bestSlot at hbest
  cases hs : (availableSlots ts).insertionSort rBest with
  | nil => rw [hs] at hbest; exact absurd hbest (by simp)
  | cons b0 rest =>
    rw [hs] at hbest
    simp only [List.head?_cons, Option.some.injEq] at hbest
    subst hbest
    intro s hsmem
    have hsin : s ∈ b0 :: rest := by
      rw [← hs]
      exact (List.mem_insertionSort rBest).mpr hsmem
    have hrel : rBest b0 s := by
      rcases List.mem_cons.mp hsin with rfl | hrest
      · exact rBest_refl s
      · have hch : (b0 :: rest).Chain' rBest := by
          rw [← hs]
          exact chain'_insertionSort_rBest _
        have hchain : List.Chain rBest b0 rest := hch
        have hb0 : b0 ∈ availableSlots ts := (List.mem_insertionSort rBest).mp
          (by rw [hs]; exact List.mem_cons_self _ _)
        have hsubset : ∀ y ∈ rest, y ∈ availableSlots ts := fun y hy =>
          (List.mem_insertionSort rBest).mp (by rw [hs]; exact List.mem_cons_of_mem _ hy)
        exact chain_rel_of_trans htrans rest b0 hb0 hsubset hchain s hrest
    unfold rBest cmpBest at hrel
    by_cases hd : 1/2 < |b0.power_consumption - s.power_consumption|
    · rw [if_pos hd] at hrel
      constructor
      · linarith
      · intro habs
        rw [abs_sub_comm] at habs
        exact absurd (lt_of_lt_of_le hd habs) (by norm_num)
    · rw [if_neg hd] at hrel
      have habs := abs_le.mp (not_lt.mp hd)
      constructor
      · linarith [habs.1]
      · intro _
        have hcast : (b0.start_time : ℚ) ≤ (s.start_time : ℚ) := by linarith
        exact_mod_cast hcast

def slotsC7W : List TimeSlot := [⟨480, 600, true, 1, 0, [], none⟩]

/-- C7 witness: a singleton available list, on which the comparator is
trivially transitive and the returned slot is the lexicographic minimum. -/
theorem C7_witness :
    bestSlot slotsC7W = some ⟨480, 600, true, 1, 0, [], none⟩
    ∧ (∀ a ∈ availableSlots slotsC7W, ∀ b ∈ availableSlots slotsC7W,
        ∀ c ∈ availableSlots slotsC7W, rBest a b → rBest b c → rBest a c)
    ∧ bestSlotLexMin ⟨480, 600, true, 1, 0, [], none⟩ (availableSlots slotsC7W) :=
  ⟨by decide, by decide,
   C7_bestSlot_lex_min slotsC7W _ (by decide) (by decide)⟩

/-- Options with an explicitly empty machine list and no single machine. -/
def optsC8 : AvailabilityOptions := ⟨0, 1, 1, none, some [], none⟩

/-- C8 counterexample: called with an empty machine set,
`checkAvailability` does not surface an error — it completes normally
with the defensive empty result (part_008 85-94). -/
theorem C8_empty_machines_counterexample :
    checkAvailability dbC2 optsC8 = .ok ⟨[], []⟩
    ∧ ∀ e : String, checkAvailability dbC2 optsC8 ≠ .error e := by
  have hok : checkAvailability dbC2 optsC8 = .ok ⟨[], []⟩ := rfl
  refine ⟨hok, fun e h => ?_⟩
  rw [hok] at h
  exact Except.noConfusion h

/-- C8 amended: whenever the normalized machine set is empty (no
`machineIds`, no `machineId`), `checkAvailability` returns normally with
empty `timeSlots` and empty `efficiencyGroups`, before any slot
generation; it does not throw. -/
theorem C8_empty_machines_normal_result (db : DB) (opts : AvailabilityOptions)
    (h : targetMachines opts.machineIds opts.machineId = []) :
    checkAvailability db opts = .ok ⟨[], []⟩ := by
  simp [checkAvailability, h]

def optsC8W : AvailabilityOptions := ⟨0, 1, 1, none, none, none⟩

/-- C8 witness: a call with neither `machineIds` nor `machineId`. -/
theorem C8_witness :
    targetMachines optsC8W.machineIds optsC8W.machineId = []
    ∧ checkAvailability dbC2 optsC8W = .ok ⟨[], []⟩ :=
  ⟨by decide, C8_empty_machines_normal_result dbC2 optsC8W (by decide)⟩

/-! ### The mock-backed `PowerOptimizationService.generateEnergyProfile`
(part_001 765-828) over the mock data of part_001 560-675.

Times stay minutes; `Number.parseInt(t.split(':')[0])` on a zero-padded
"HH:MM" string is the hour, i.e. `minutes / 60`.  A calendar date is
a day index (`toDateString` equality); 2024-12-16 (a Monday, weekday 1)
is day 16, and the two mock appointments lie on days 20 and 21. -/

/-- Mock `PreferredHour` rows.  The `PreferredHour` type (part_000) has
no `laboratory_id` field and none of the mock rows carries one, so the
field is `none` (JS `undefined`) on every row. -/
structure MockPreferredHour where
  id : String
  laboratory_id : Option String
  day_of_week : ℕ
  start_time : ℕ
  end_time : ℕ
  power_consumption : ℚ
deriving DecidableEq

/-- `mockPreferredHours` (part_001 608-644). -/
def mockPreferredHours : List MockPreferredHour :=
  [⟨"pref-1", none, 1, 480, 600, 111/2⟩,
   ⟨"pref-2", none, 1, 840, 960, 401/2⟩,
   ⟨"pref-3", none, 2, 540, 660, 2⟩,
   ⟨"pref-4", none, 3, 600, 720, 7/2⟩]

structure MockAppointment where
  id : String
  laboratory_id : String
  day : ℕ
  start_time : ℕ
  end_time : ℕ
  status : String
  power_consumption : ℚ
deriving DecidableEq

/-- `mockAppointments` (part_001 646-675). -/
def mockAppointments : List MockAppointment :=
  [⟨"app-1", "lab-1", 20, 540, 660, "confirmed", 5/2⟩,
   ⟨"app-2", "lab-2", 21, 840, 960, "pending", 16/5⟩]

/-- `Number.parseInt(time.split(':')[0])` for a zero-padded "HH:MM". -/
def parseHour (minutes : ℕ) : ℕ := minutes / 60

/-- `getBaseLaboratoryConsumption` (part_001 1070-1077). -/
def getBaseLaboratoryConsumption (hour : ℕ) : ℚ :=
  if hour < 6 then 1/2
  else if hour < 8 then 1
  else if hour < 18 then 2
  else if hour < 22 then 3/2
  else 4/5

/-- The preferred-hours filter of `generateEnergyProfile` (part_001
774-776): `pref.laboratory_id === laboratoryId && pref.day_of_week ===
dayOfWeek`.  The strict equality compares the (absent) `laboratory_id`
field with the requested id. -/
def profilePreferredHours (labId : String) (dow : ℕ) : List MockPreferredHour :=
  mockPreferredHours.filter fun p =>
    decide (p.laboratory_id = some labId) && decide (p.day_of_week = dow)

/-- The appointments filter of `generateEnergyProfile` (part_001
767-772). -/
def profileAppointments (labId : String) (day : ℕ) : List MockAppointment :=
  mockAppointments.filter fun a =>
    decide (a.laboratory_id = labId) && decide (a.day = day)
      && !(a.status == "cancelled")

/-- One hour of the `generateEnergyProfile` loop (part_001 782-810):
base load, plus the power of appointments whose `[startHour, endHour)`
hour range contains the hour, all multiplied by the 0.8 off-peak
discount when the hour falls in a filtered preferred window. -/
def hourlyConsumptionAt (labId : String) (day dow hour : ℕ) : ℚ :=
  let appts := (profileAppointments labId day).filter fun a =>
    decide (parseHour a.start_time ≤ hour) && decide (hour < parseHour a.end_time)
  let consumption := getBaseLaboratoryConsumption hour
    + (appts.map fun a => a.power_consumption).sum
  let isPreferredHour := (profilePreferredHours labId dow).any fun p =>
    decide (parseHour p.start_time ≤ hour) && decide (hour < parseHour p.end_time)
  if isPreferredHour then consumption * (4/5) else consumption

/-- Whether the hour lies in some preferred window of the weekday,
ignoring any laboratory scoping — the reading of "falls inside a
preferred-hour window" under the globally scoped `PreferredHour` data
model (part_000). -/
def hourInGlobalPreferredWindow (dow hour : ℕ) : Bool :=
  mockPreferredHours.any fun p =>
    decide (p.day_of_week = dow) && decide (parseHour p.start_time ≤ hour)
      && decide (hour < parseHour p.end_time)

/-- C9: hour 8 of Monday 2024-12-16 lies inside the preferred window
08:00-10:00 of weekday 1, so the claim prescribes the discounted value
`0.8 * 2`; the code filters preferred hours by a `laboratory_id` field
that exists on no `PreferredHour` row, the filtered list is empty for
laboratory `lab-1`, and the hour is charged the undiscounted `2`. -/
theorem C9_preferred_discount_dead :
    hourInGlobalPreferredWindow 1 8 = true
    ∧ profilePreferredHours "lab-1" 1 = []
    ∧ hourlyConsumptionAt "lab-1" 16 1 8 = 2
    ∧ hourlyConsumptionAt "lab-1" 16 1 8 ≠ (4/5) * 2 := by
  refine ⟨by decide, by decide, by decide, by decide⟩

/-! ### C10: cross-laboratory appointments in the load query -/

/-- A snapshot with one more appointment row. -/
def addAppointment (db : DB) (a : DBAppointment) : DB :=
  ⟨db.appointments ++ [a], db.machines, db.preferredHours⟩

lemma conflictingQuery_addAppointment (db : DB) (labId day : ℕ)
    (targets : List ℕ) (a : DBAppointment) (h : a.laboratory_id ≠ labId) :
    conflictingQuery (addAppointment db a) labId day targets
      = conflictingQuery db labId day targets := by
  unfold conflictingQuery addAppointment
  simp [List.filter_append, h]

/-- Only the conflict list determines a candidate slot's start time and
availability; the load list feeds nothing but the power. -/
lemma map_start_avail_generateTimeSlots (mids : List String) (dur : ℚ)
    (c : List ApptLight) (p : List PreferredHourLight)
    (m₁ m₂ : List MachineLight) (l₁ l₂ : List ApptLight) :
    ((generateTimeSlots mids dur c p m₁ l₁).map fun s => (s.start_time, s.available)).Perm
      ((generateTimeSlots mids dur c p m₂ l₂).map fun s => (s.start_time, s.available)) := by
  rw [generateTimeSlots_eq, generateTimeSlots_eq, List.map_map, List.map_map]
  have h1 : ∀ lo : ℚ, ((fun s : TimeSlot => (s.start_time, s.available)) ∘ spikeOf lo)
      = fun s : TimeSlot => (s.start_time, s.available) := fun lo => rfl
  rw [h1, h1]
  refine ((List.perm_insertionSort slotLE _).map _).trans ?_
  refine List.Perm.trans ?_ ((List.perm_insertionSort slotLE _).map _).symm
  unfold rawSlots
  rw [List.map_map, List.map_map]
  have h2 : ((fun s : TimeSlot => (s.start_time, s.available)) ∘ mkSlot dur mids c p l₁)
      = ((fun s : TimeSlot => (s.start_time, s.available)) ∘ mkSlot dur mids c p l₂) := by
    funext q
    simp only [Function.comp_apply, mkSlot_start, mkSlot_available]
  rw [h2]

/-- Snapshot for the concrete part of C10: no appointments, one machine
in laboratory 1. -/
def dbC10 : DB := ⟨[], [⟨1, 1, 1⟩], []⟩

/-- An appointment of a different laboratory (2) on the requested date,
using machine 1, 09:00-11:00 at 2 kW. -/
def aC10 : DBAppointment := ⟨2, 0, "confirmed", [1], 540, 660, 2⟩

def optsC10 : AvailabilityOptions := ⟨0, 1, 1, none, some [1], some 2⟩

/-- C10: the load query carries no laboratory filter while the conflict
query does, so an appointment of a different laboratory (i) leaves the
conflict query, and with it every slot's `(start_time, available)` pair,
unchanged, (ii) still enters the load query when on the requested date
and not cancelled, and (iii) can change a slot's `power_consumption`
while that slot's availability is unchanged. -/
theorem C10_cross_lab_load_vs_availability :
    (∀ (db : DB) (opts : AvailabilityOptions) (a : DBAppointment),
      a.laboratory_id ≠ opts.laboratoryId →
      (conflictingQuery (addAppointment db a) opts.laboratoryId opts.day
          (targetMachines opts.machineIds opts.machineId)
        = conflictingQuery db opts.laboratoryId opts.day
            (targetMachines opts.machineIds opts.machineId))
      ∧ ((resultSlots (addAppointment db a) opts).map
            fun s => (s.start_time, s.available)).Perm
          ((resultSlots db opts).map fun s => (s.start_time, s.available)))
    ∧ (∀ (db : DB) (day : ℕ) (a : DBAppointment),
        a.day = day → notCancelled a.status = true →
        a ∈ loadQuery (addAppointment db a) day)
    ∧ (∃ s ∈ resultSlots (addAppointment dbC10 aC10) optsC10,
        ∃ s' ∈ resultSlots dbC10 optsC10,
          s.start_time = s'.start_time ∧ s.available = s'.available
          ∧ s.power_consumption ≠ s'.power_consumption) := by
  refine ⟨?_, ?_, ?_⟩
  · intro db opts a hlab
    have hcq := conflictingQuery_addAppointment db opts.laboratoryId opts.day
      (targetMachines opts.machineIds opts.machineId) a hlab
    refine ⟨hcq, ?_⟩
    unfold resultSlots
    by_cases ht : (targetMachines opts.machineIds opts.machineId).length = 0
    · simp [checkAvailability, ht]
    · simp only [checkAvailability, ht, if_false]
      rw [hcq]
      exact map_start_avail_generateTimeSlots _ _ _ _ _ _ _ _
  · intro db day a hday hstatus
    unfold loadQuery addAppointment
    simp [List.filter_append, hday, hstatus]
  · decide

/-- C10 witness: the cross-laboratory appointment `aC10` leaves every
slot's availability unchanged while entering the load. -/
theorem C10_witness :
    aC10.laboratory_id ≠ optsC10.laboratoryId
    ∧ ((conflictingQuery (addAppointment dbC10 aC10) optsC10.laboratoryId optsC10.day
          (targetMachines optsC10.machineIds optsC10.machineId)
        = conflictingQuery dbC10 optsC10.laboratoryId optsC10.day
            (targetMachines optsC10.machineIds optsC10.machineId))
      ∧ ((resultSlots (addAppointment dbC10 aC10) optsC10).map
            fun s => (s.start_time, s.available)).Perm
          ((resultSlots dbC10 optsC10).map fun s => (s.start_time, s.available)))
    ∧ (aC10.day = optsC10.day ∧ notCancelled aC10.status = true
        ∧ aC10 ∈ loadQuery (addAppointment dbC10 aC10) optsC10.day) :=
  ⟨by decide,
   C10_cross_lab_load_vs_availability.1 dbC10 optsC10 aC10 (by decide),
   by decide, by decide,
   C10_cross_lab_load_vs_availability.2.1 dbC10 optsC10.day aC10 (by decide) (by decide)⟩

end EnergyCalendar
